import Mathlib

/-!
Shallow embedding of the PDF outline-extraction pipeline (src/main.py) and
verification of its specification claims.

Modelling conventions:
* A PDF document, as seen through the PyMuPDF collaborator, is a `Doc`:
  pages of blocks of lines of styled spans, plus the embedded metadata
  title and the embedded table of contents (`doc.get_toc()`).
* Python floats (font sizes) are modelled as exact rationals `ℚ`; none of
  the claims depends on binary floating-point rounding.
* Python's `str.strip` / `str.split` / `str.lower` / `in` / `endswith`
  are modelled on the character lists of Lean strings (`pyStrip`,
  `pyWords`, `pyLower`, `strContains`, `pyEndsWithColon`), restricted to
  the ASCII behaviour, which is all the source exercises.
* Python's built-in `round` (banker's rounding) is `pyRound`.
* Python's stable `sorted(xs, key=...)` is modelled as the stable
  `List.insertionSort` with the total preorder induced by the key tuple;
  a stable sort is unique, so this is extensionally the same function.
* The pickled scikit-learn classifier is an opaque pure function
  `Model : List (List ℚ) → Except Unit (List ℕ)`; `Except.error` models a
  prediction call that raises.
* Python exceptions are modelled with `Except Unit`; `main`'s per-file
  `try/except` body is `processDocument`, and `main` itself (model load
  followed by the batch loop) is `mainPipeline`.
-/

/-! ## Python string primitives -/

/-- Whitespace test used by Python's `str.strip` / `str.split` (ASCII fragment). -/
def pyWs (c : Char) : Bool := c.isWhitespace

/-- Python `str.strip` on a character list: drop whitespace from both ends. -/
def pyStripL (l : List Char) : List Char :=
  ((l.dropWhile pyWs).reverse.dropWhile pyWs).reverse

/-- Python `str.strip`. -/
def pyStrip (s : String) : String := ⟨pyStripL s.data⟩

/-- Accumulator pass of Python `str.split()` (split on whitespace runs,
dropping empty fields); `cur` is the current word, reversed. -/
def pyWordsGo : List Char → List Char → List (List Char)
  | cur, [] => if cur = [] then [] else [cur.reverse]
  | cur, c :: cs =>
      if pyWs c then
        if cur = [] then pyWordsGo [] cs else cur.reverse :: pyWordsGo [] cs
      else pyWordsGo (c :: cur) cs

/-- Python `str.split()` with no separator argument. -/
def pyWords (l : List Char) : List (List Char) := pyWordsGo [] l

/-- Python `str.lower` (ASCII fragment). -/
def pyLower (s : String) : String := ⟨s.data.map Char.toLower⟩

/-- Does `pat` occur at the head of `l`? (used by `containsSub`). -/
def leadsWith : List Char → List Char → Bool
  | [], _ => true
  | _ :: _, [] => false
  | p :: ps, c :: cs => p = c && leadsWith ps cs

/-- Does `pat` occur anywhere in `l`? -/
def containsSub (pat : List Char) : List Char → Bool
  | [] => pat.isEmpty
  | c :: cs => leadsWith pat (c :: cs) || containsSub pat cs

/-- Python `pat in s` substring test. -/
def strContains (s pat : String) : Bool := containsSub pat.data s.data

/-- Python `s.endswith(":")`. -/
def pyEndsWithColon (s : String) : Bool := s.data.getLast? = some ':'

/-- Python `str.isupper` (ASCII fragment): some cased character, and no
lowercase character. -/
def pyIsUpper (s : String) : Bool :=
  s.data.any Char.isUpper && s.data.all (fun c => !c.isLower)

/-- Floor of a rational (`Int.fdiv` of the reduced fraction). -/
def pyFloor (q : ℚ) : ℤ := Int.fdiv q.num (q.den : ℤ)

/-- Python's built-in `round` to an integer: round half to even. -/
def pyRound (q : ℚ) : ℤ :=
  let f := pyFloor q
  let r := q - (f : ℚ)
  if r < 1 / 2 then f
  else if 1 / 2 < r then f + 1
  else if f % 2 = 0 then f else f + 1

/-- Python string `<` (lexicographic by code point), as the reflexive `≤`.
This is the order `sorted` uses on the `level` component of its key tuples. -/
def strLeL : List Char → List Char → Bool
  | [], _ => true
  | _ :: _, [] => false
  | a :: as, b :: bs =>
      if a.toNat < b.toNat then true
      else if b.toNat < a.toNat then false
      else strLeL as bs

/-- Python `≤` on strings. -/
def pyStrLe (s t : String) : Prop := strLeL s.data t.data = true

instance : DecidableRel pyStrLe := fun s t => by unfold pyStrLe; infer_instance

/-! ## Data model: the document as exposed by the PDF collaborator -/

/-- One styled run of text (a PyMuPDF span). -/
structure Span where
  text : String
  size : ℚ
  font : String
deriving DecidableEq, Repr, Inhabited

/-- One visual line: a sequence of spans. -/
structure Line where
  spans : List Span
deriving DecidableEq, Repr, Inhabited

/-- One text block; `type = 0` marks a text block (PyMuPDF convention). -/
structure Block where
  type : ℤ
  lines : List Line
deriving DecidableEq, Repr, Inhabited

/-- One page: the block list of `page.get_text("dict")["blocks"]`. -/
structure PdfPage where
  blocks : List Block
deriving DecidableEq, Repr, Inhabited

/-- One embedded table-of-contents entry `(level, title, page)` from
`doc.get_toc()`. -/
structure TocEntry where
  level : ℤ
  title : String
  page : ℤ
deriving DecidableEq, Repr, Inhabited

/-- A whole input document: pages, the metadata title (`doc.metadata.get('title','')`,
empty string when absent) and the embedded outline (`doc.get_toc()`, empty
list when the document has none). -/
structure Doc where
  pages : List PdfPage
  metadataTitle : String
  toc : List TocEntry
deriving DecidableEq, Repr, Inhabited

/-- A line record of the ML path (the dict built in `extract_blocks_from_pdf`).
`rel_font`, `word_count` are filled by the second pass; `level` is filled
after classification (empty string beforehand). -/
structure Item where
  text : String
  page : ℤ
  size : ℚ
  font : String
  bold : ℕ
  caps : ℕ
  rel_font : ℚ
  word_count : ℕ
  level : String
deriving DecidableEq, Repr, Inhabited

/-- One outline entry `{level, text, page}`. -/
structure Heading where
  level : String
  text : String
  page : ℤ
deriving DecidableEq, Repr, Inhabited

/-- The result object serialized for one document. -/
structure ExtractionResult where
  title : String
  outline : List Heading
deriving DecidableEq, Repr, Inhabited

/-- The label table `LEVEL_LABELS` of src/main.py. -/
def LEVEL_LABELS : List String := ["BODY", "TITLE", "H1", "H2", "H3", "H4"]

deriving instance DecidableEq for Except

/-- The loaded classifier artifact: a pure prediction function from the
feature matrix to class indices; `Except.error` models a prediction call
that raises. -/
def Model : Type := List (List ℚ) → Except Unit (List ℕ)

/-! ## ML-based approach (src/main.py lines 16-102) -/

/-- Maximum span size on a line: `max([span["size"] for span in line["spans"]])`
(only ever applied to non-empty span lists). -/
def maxSpanSize : List Span → ℚ
  | [] => 0
  | s :: rest => rest.foldl (fun m t => max m t.size) s.size

/-- First pass of `extract_blocks_from_pdf` for one line: the text/style
record, or `none` when the joined, stripped text is empty or shorter than 2.
`rel_font` and `word_count` are placeholders until the second pass. -/
def collectLineItem (pageNum : ℤ) (l : Line) : Option Item :=
  let line_text := pyStrip (String.intercalate " " (l.spans.map Span.text))
  if line_text = "" ∨ line_text.length < 2 then none
  else
    match l.spans with
    | [] => none
    | s0 :: _ =>
        some { text := line_text, page := pageNum, size := maxSpanSize l.spans,
               font := s0.font,
               bold := if strContains s0.font "Bold" then 1 else 0,
               caps := if pyIsUpper (pyStrip line_text) then 1 else 0,
               rel_font := 0, word_count := 0, level := "" }

/-- First pass of `extract_blocks_from_pdf` for one page: text blocks only. -/
def collectPage (pageNum : ℤ) (p : PdfPage) : List Item :=
  ((p.blocks.filter (fun b => b.type = 0)).map
    (fun b => b.lines.filterMap (collectLineItem pageNum))).flatten

/-- `extract_blocks_from_pdf`: both passes. The document-wide maximum font
size is the running maximum (initialised to 0) over the kept lines; the
second pass fills `rel_font` (1.0 when the maximum is 0, mirroring the
Python truthiness test) and `word_count`. -/
def extract_blocks_from_pdf (doc : Doc) : List Item :=
  let items := (doc.pages.enum.map (fun pi => collectPage ((pi.1 : ℤ) + 1) pi.2)).flatten
  let max_fontsize := items.foldl (fun m it => max m it.size) 0
  items.map (fun it =>
    { it with rel_font := if max_fontsize = 0 then 1 else it.size / max_fontsize,
              word_count := (pyWords it.text.data).length })

/-- `build_features`: the fixed feature-vector contract
`[size, bold, caps, word_count, rel_font, page]`. -/
def build_features (items : List Item) : List (List ℚ) :=
  items.map (fun x =>
    [x.size, (x.bold : ℚ), (x.caps : ℚ), (x.word_count : ℚ), x.rel_font, (x.page : ℚ)])

/-- `is_likely_label`: form-field caption test. -/
def is_likely_label (text : String) : Bool :=
  let t := pyStrip text
  if t.length < 5 || pyEndsWithColon t then true
  else if (pyWords t.data).length ≤ 3 then true
  else if ["name", "signature", "date"].any (fun x => strContains (pyLower t) x) then true
  else false

/-- `final_filter_outline`: keep H1-H4 lines that are not label-like. -/
def final_filter_outline (items : List Item) : List Heading :=
  items.filterMap (fun it =>
    if it.level ∈ (["H1", "H2", "H3", "H4"] : List String) then
      if is_likely_label it.text then none
      else some ⟨it.level, pyStrip it.text, it.page⟩
    else none)

/-- Sort key `(-rel_font, page)` of `find_title`'s TITLE branch, as a `≤`. -/
def titleKeyLe (a b : Item) : Prop :=
  b.rel_font < a.rel_font ∨ (a.rel_font = b.rel_font ∧ a.page ≤ b.page)

instance : DecidableRel titleKeyLe := fun a b => by unfold titleKeyLe; infer_instance

/-- Sort key `(-rel_font, -size)` of `find_title`'s page-1 branch, as a `≤`. -/
def fpKeyLe (a b : Item) : Prop :=
  b.rel_font < a.rel_font ∨ (a.rel_font = b.rel_font ∧ b.size ≤ a.size)

instance : DecidableRel fpKeyLe := fun a b => by unfold fpKeyLe; infer_instance

/-- `find_title`: best TITLE-labeled line, else best page-1 line, else "". -/
def find_title (items : List Item) : String :=
  let title_candidates := items.filter (fun x => x.level = "TITLE")
  if title_candidates ≠ [] then
    pyStrip ((List.insertionSort titleKeyLe title_candidates).headD default).text
  else
    let fp := items.filter (fun x => x.page = 1)
    if fp = [] then ""
    else pyStrip ((List.insertionSort fpKeyLe fp).headD default).text

/-- The post-prediction labelling loop `items[i]["level"] = LEVEL_LABELS[lv]`.
A length mismatch or an out-of-range class index raises in Python
(IndexError/KeyError), modelled as `Except.error`. -/
def assignPredictedLevels (items : List Item) (levels : List ℕ) : Except Unit (List Item) :=
  if levels.length = items.length ∧ ∀ lv ∈ levels, lv < 6 then
    Except.ok ((items.zip levels).map (fun p => { p.1 with level := LEVEL_LABELS.getD p.2 "" }))
  else Except.error ()

/-- `ml_based_extraction`. -/
def ml_based_extraction (doc : Doc) (model : Model) : Except Unit ExtractionResult :=
  let items := extract_blocks_from_pdf doc
  if items = [] then Except.ok ⟨"", []⟩
  else
    match model (build_features items) with
    | Except.error e => Except.error e
    | Except.ok levels =>
        match assignPredictedLevels items levels with
        | Except.error e => Except.error e
        | Except.ok labeled => Except.ok ⟨find_title labeled, final_filter_outline labeled⟩

/-! ## Heuristic / ToC approach (src/main.py lines 106-218) -/

/-- The span scan of `get_title`'s page-1 fallback: track the strictly
largest span size seen, remembering the whole line text of the span's line. -/
def getTitleFromPage (p : PdfPage) : String :=
  let st := p.blocks.foldl (fun st b =>
    if b.lines ≠ [] then
      b.lines.foldl (fun st l =>
        l.spans.foldl (fun (st : ℚ × String) s =>
          if st.1 < s.size then (s.size, String.join (l.spans.map Span.text)) else st) st) st
    else st) ((0 : ℚ), "")
  pyStrip st.2

/-- `get_title`: metadata title when non-empty (Python truthiness), else the
page-1 largest-font line; `doc[0]` raises on an empty document. -/
def get_title (doc : Doc) : Except Unit String :=
  if doc.metadataTitle ≠ "" then Except.ok (pyStrip doc.metadataTitle)
  else
    match doc.pages with
    | [] => Except.error ()
    | p :: _ => Except.ok (getTitleFromPage p)

/-- `extract_headings_from_toc`: `None` when `doc.get_toc()` is empty, else
the level-1..3 entries mapped to `H<level>` with trimmed titles. -/
def extract_headings_from_toc (doc : Doc) : Option (List Heading) :=
  if doc.toc = [] then none
  else
    some (doc.toc.filterMap (fun e =>
      if 1 ≤ e.level ∧ e.level ≤ 3 then
        some ⟨"H" ++ toString e.level, pyStrip e.title, e.page⟩
      else none))

/-- The style grouping key `(round(size), is_bold, font)` of the
heuristic path (`is_bold` tests `"bold" in font.lower()`). -/
structure StyleKey where
  rsize : ℤ
  bold : Bool
  font : String
deriving DecidableEq, Repr, Inhabited

/-- Style key of one span. -/
def spanStyleKey (s : Span) : StyleKey :=
  ⟨pyRound s.size, strContains (pyLower s.font) "bold", s.font⟩

/-- Character mass one span contributes: `len(s['text'].strip())`. -/
def spanMass (s : Span) : ℕ := (pyStrip s.text).length

/-- `defaultdict(int)` update `styles[style_key] += mass`, preserving the
dict's insertion order of keys. -/
def addMass : List (StyleKey × ℕ) → StyleKey → ℕ → List (StyleKey × ℕ)
  | [], k, m => [(k, m)]
  | (k', c) :: rest, k, m =>
      if k' = k then (k', c + m) :: rest else (k', c) :: addMass rest k m

/-- The body of `analyze_font_styles`' span loop:
`styles[style_key] += len(s['text'].strip())`. -/
def styleStep (acc : List (StyleKey × ℕ)) (s : Span) : List (StyleKey × ℕ) :=
  addMass acc (spanStyleKey s) (spanMass s)

/-- The nested span walk of `analyze_font_styles`, producing the
character-mass table in key insertion order. -/
def collectStyles (doc : Doc) : List (StyleKey × ℕ) :=
  doc.pages.foldl (fun acc p =>
    p.blocks.foldl (fun acc b =>
      if b.type = 0 then
        b.lines.foldl (fun acc l => l.spans.foldl styleStep acc) acc
      else acc) acc) []

/-- The `-int(is_bold)` component of the style sort key. -/
def boldNegVal (b : Bool) : ℤ := if b then -1 else 0

/-- The composite sort key `(count, -rounded_size, -is_bold)` of
`analyze_font_styles`, as a `≤`: ascending character mass, then descending
rounded size, then descending boldness. -/
def styleLe (a b : StyleKey × ℕ) : Prop :=
  a.2 < b.2 ∨ (a.2 = b.2 ∧
    (b.1.rsize < a.1.rsize ∨ (a.1.rsize = b.1.rsize ∧
      boldNegVal a.1.bold ≤ boldNegVal b.1.bold)))

instance : DecidableRel styleLe := fun a b => by unfold styleLe; infer_instance

/-- The assignment loop of `analyze_font_styles`: first three ranked styles
become H1, H2, H3; the loop breaks afterwards. -/
def assignH : List (StyleKey × ℕ) → ℕ → List (StyleKey × String)
  | [], _ => []
  | (k, _) :: rest, lvl =>
      if lvl ≤ 3 then (k, "H" ++ toString lvl) :: assignH rest (lvl + 1) else []

/-- `analyze_font_styles`: rank the style table and map the first three
ranked keys to heading levels. -/
def analyze_font_styles (doc : Doc) : List (StyleKey × String) :=
  assignH (List.insertionSort styleLe (collectStyles doc)) 1

/-- Lookup in the heading-style mapping (`style_key in heading_styles` /
`heading_styles[style_key]`). -/
def lookupStyle : List (StyleKey × String) → StyleKey → Option String
  | [], _ => none
  | (k, v) :: rest, key => if k = key then some v else lookupStyle rest key

/-- Character class `[A-Z\d]` under `re.IGNORECASE`: ASCII letters of either
case, or a digit. -/
def isAsciiAlnum (c : Char) : Bool :=
  ('A' ≤ c && c ≤ 'Z') || ('a' ≤ c && c ≤ 'z') || c.isDigit

mutual
/-- After a literal `.` inside `(?:\.[\d]+)*`: require one digit, then the
rest of the digit run. -/
def groupRest : List Char → Bool
  | [] => false
  | c :: cs => c.isDigit && digitRun cs

/-- Inside the `[\d]+` of a `\.[\d]+` group: consume further digits; then
either the mandatory `\s` of `\s+.*` (success: `.*` matches anything,
possibly empty) or another `\.[\d]+` group. These runs are maximal-munch
safe because a digit can neither start `\.` nor be whitespace. -/
def digitRun : List Char → Bool
  | [] => false
  | c :: cs =>
      if c.isDigit then digitRun cs
      else if c.isWhitespace then true
      else if c = '.' then groupRest cs
      else false
end

/-- After the leading `[A-Z\d]+` token: `(?:\.[\d]+)*\s+.*`. -/
def afterTok : List Char → Bool
  | [] => false
  | c :: cs =>
      if c.isWhitespace then true
      else if c = '.' then groupRest cs
      else false

/-- The second regex alternative `[A-Z\d]+(?:\.[\d]+)*\s+.*` (anchored at the
start, case-insensitive). The `[A-Z\d]+` run is maximal-munch safe because
the continuation must start with `.` or whitespace, neither alphanumeric. -/
def altTokenNumbered (l : List Char) : Bool :=
  match l with
  | [] => false
  | c :: _ => isAsciiAlnum c && afterTok (l.dropWhile isAsciiAlnum)

/-- Case-insensitive literal keyword match, returning the rest of the input. -/
def dropCaseless : List Char → List Char → Option (List Char)
  | [], l => some l
  | _ :: _, [] => none
  | p :: ps, c :: cs => if c.toLower = p then dropCaseless ps cs else none

/-- After a `Chapter|Section|Part` keyword: `\s+\d+\s+.*`. -/
def wsNumWs (l : List Char) : Bool :=
  match l with
  | [] => false
  | c :: cs =>
      c.isWhitespace &&
        (match cs.dropWhile Char.isWhitespace with
         | [] => false
         | d :: ds =>
             d.isDigit &&
               (match ds.dropWhile Char.isDigit with
                | [] => false
                | e :: _ => e.isWhitespace))

/-- The first regex alternative `(?:Chapter|Section|Part)\s+\d+` followed by
the shared `\s+.*` suffix. -/
def altKeywordNumbered (l : List Char) : Bool :=
  (["chapter", "section", "part"].map String.data).any (fun kw =>
    match dropCaseless kw l with
    | some rest => wsNumWs rest
    | none => false)

/-- `numbered_heading_regex.match(line_text)` of `extract_headings_by_heuristic`:
`^(?:(?:Chapter|Section|Part)\s+\d+|[A-Z\d]+(?:\.[\d]+)*)\s+.*` with
`re.IGNORECASE`, as a prefix match. -/
def numberedHeadingMatch (s : String) : Bool :=
  altKeywordNumbered s.data || altTokenNumbered s.data

/-- Joined line text of the heuristic path: `"".join(span texts).strip()`. -/
def lineHeurText (l : Line) : String := pyStrip (String.join (l.spans.map Span.text))

/-- The per-line body of `extract_headings_by_heuristic`'s loop: style-map
match first, else the numbered-heading pattern (with its inline freshness
check against the accumulated headings). -/
def processLine (hs : List (StyleKey × String)) (pageNum : ℤ) (acc : List Heading)
    (l : Line) : List Heading :=
  match l.spans with
  | [] => acc
  | s0 :: _ =>
      let line_text := lineHeurText l
      if line_text = "" ∨ line_text.length < 3 then acc
      else
        match lookupStyle hs (spanStyleKey s0) with
        | some lvl => acc ++ [⟨lvl, line_text, pageNum⟩]
        | none =>
            if numberedHeadingMatch line_text then
              if acc.all (fun h => (h.text != line_text) || (h.page != pageNum)) then
                acc ++ [⟨"H2", line_text, pageNum⟩]
              else acc
            else acc

/-- One page of `extract_headings_by_heuristic`'s loop (text blocks only). -/
def heurPage (hs : List (StyleKey × String)) (acc : List Heading) (pageNum : ℤ)
    (p : PdfPage) : List Heading :=
  p.blocks.foldl (fun acc b =>
    if b.type = 0 then b.lines.foldl (fun acc l => processLine hs pageNum acc l) acc
    else acc) acc

/-- The final dedup loop of `extract_headings_by_heuristic`: keep the first
heading for each `(text, page)` identifier. -/
def dedupHeadings : List Heading → List (String × ℤ) → List Heading
  | [], _ => []
  | h :: rest, seen =>
      if (h.text, h.page) ∈ seen then dedupHeadings rest seen
      else h :: dedupHeadings rest ((h.text, h.page) :: seen)

/-- The final sort key `(page, level)` of `extract_headings_by_heuristic`,
as a `≤`: page ascending, then level-string ascending. -/
def headingLe (a b : Heading) : Prop :=
  a.page < b.page ∨ (a.page = b.page ∧ pyStrLe a.level b.level)

instance : DecidableRel headingLe := fun a b => by unfold headingLe; infer_instance

/-- `extract_headings_by_heuristic`. -/
def extract_headings_by_heuristic (doc : Doc) (hs : List (StyleKey × String)) : List Heading :=
  let headings := doc.pages.enum.foldl (fun acc pi => heurPage hs acc ((pi.1 : ℤ) + 1) pi.2) []
  List.insertionSort headingLe (dedupHeadings headings [])

/-- `fallback_extraction`: title first (may raise on an empty document),
then the ToC, falling through to the heuristic path when the ToC result is
`None` or empty (both falsy in `if not headings`). -/
def fallback_extraction (doc : Doc) : Except Unit ExtractionResult :=
  match get_title doc with
  | Except.error e => Except.error e
  | Except.ok title =>
      Except.ok ⟨title,
        match extract_headings_from_toc doc with
        | some hs =>
            if hs = [] then extract_headings_by_heuristic doc (analyze_font_styles doc)
            else hs
        | none => extract_headings_by_heuristic doc (analyze_font_styles doc)⟩

/-! ## Orchestration (src/main.py lines 222-244) -/

/-- The per-document body of `main`'s loop: try the ML path first; on an
empty ML outline or any exception, run `fallback_extraction`. An exception
raised by `fallback_extraction` itself escapes either way (the `except`
arm re-raises through its own `fallback_extraction` call). -/
def processDocument (model : Model) (doc : Doc) : Except Unit ExtractionResult :=
  match ml_based_extraction doc model with
  | Except.ok r => if r.outline = [] then fallback_extraction doc else Except.ok r
  | Except.error _ => fallback_extraction doc

/-- `main`: `joblib.load` runs outside any `try`, so a load failure aborts
the whole run; otherwise each input document is processed in order. -/
def mainPipeline (loadResult : Except Unit Model) (docs : List Doc) :
    Except Unit (List ExtractionResult) :=
  match loadResult with
  | Except.error e => Except.error e
  | Except.ok model => docs.mapM (fun d => processDocument model d)

/-! ## Spec-side definitions used to state the claims -/

/-- The outline the spec says a levels-1..3 ToC should be mirrored to:
in-range entries, trimmed titles, `H<level>` labels, in ToC order. -/
def tocMirror (doc : Doc) : List Heading :=
  (doc.toc.filter (fun e => 1 ≤ e.level ∧ e.level ≤ 3)).map
    (fun e => ⟨"H" ++ toString e.level, pyStrip e.title, e.page⟩)

/-- All spans of text blocks, in document order (used to state what the
character mass of a style is). -/
def allStyleSpans (doc : Doc) : List Span :=
  (doc.pages.map (fun p =>
    ((p.blocks.filter (fun b => b.type = 0)).map
      (fun b => (b.lines.map Line.spans).flatten)).flatten)).flatten

/-- Total character mass a document assigns to one style key. -/
def massOf (k : StyleKey) (spans : List Span) : ℕ :=
  ((spans.filter (fun s => spanStyleKey s = k)).map spanMass).sum

/-! ## Order lemmas for the sort keys -/

theorem strLeL_cons (a b : Char) (as bs : List Char) :
    strLeL (a :: as) (b :: bs) = true ↔
      a.toNat < b.toNat ∨ (a.toNat = b.toNat ∧ strLeL as bs = true) := by
  simp only [strLeL]
  by_cases h1 : a.toNat < b.toNat
  · simp [h1]
  · by_cases h2 : b.toNat < a.toNat
    · simp [h1, h2, show a.toNat ≠ b.toNat by omega]
    · simp [h1, h2, show a.toNat = b.toNat by omega]

theorem strLeL_total : ∀ a b : List Char, strLeL a b = true ∨ strLeL b a = true
  | [], _ => Or.inl rfl
  | _ :: _, [] => Or.inr rfl
  | a :: as, b :: bs => by
      rw [strLeL_cons, strLeL_cons]
      rcases Nat.lt_trichotomy a.toNat b.toNat with h | h | h
      · exact Or.inl (Or.inl h)
      · rcases strLeL_total as bs with ht | ht
        · exact Or.inl (Or.inr ⟨h, ht⟩)
        · exact Or.inr (Or.inr ⟨h.symm, ht⟩)
      · exact Or.inr (Or.inl h)

theorem strLeL_trans : ∀ a b c : List Char,
    strLeL a b = true → strLeL b c = true → strLeL a c = true
  | [], _, _, _, _ => rfl
  | _ :: _, [], _, h, _ => by simp [strLeL] at h
  | _ :: _, _ :: _, [], _, h => by simp [strLeL] at h
  | a :: as, b :: bs, c :: cs, h1, h2 => by
      rw [strLeL_cons] at h1 h2 ⊢
      rcases h1 with h1 | ⟨e1, t1⟩ <;> rcases h2 with h2 | ⟨e2, t2⟩
      · exact Or.inl (by omega)
      · exact Or.inl (by omega)
      · exact Or.inl (by omega)
      · exact Or.inr ⟨by omega, strLeL_trans as bs cs t1 t2⟩

theorem pyStrLe_total (s t : String) : pyStrLe s t ∨ pyStrLe t s := strLeL_total s.data t.data

theorem pyStrLe_trans {s t u : String} (h1 : pyStrLe s t) (h2 : pyStrLe t u) : pyStrLe s u :=
  strLeL_trans s.data t.data u.data h1 h2

instance : IsTotal Heading headingLe := ⟨by
  intro a b
  unfold headingLe
  rcases Int.lt_trichotomy a.page b.page with h | h | h
  · exact Or.inl (Or.inl h)
  · rcases pyStrLe_total a.level b.level with hs | hs
    · exact Or.inl (Or.inr ⟨h, hs⟩)
    · exact Or.inr (Or.inr ⟨h.symm, hs⟩)
  · exact Or.inr (Or.inl h)⟩

instance : IsTrans Heading headingLe := ⟨by
  intro a b c hab hbc
  unfold headingLe at *
  rcases hab with h1 | ⟨e1, s1⟩ <;> rcases hbc with h2 | ⟨e2, s2⟩
  · exact Or.inl (by omega)
  · exact Or.inl (by omega)
  · exact Or.inl (by omega)
  · exact Or.inr ⟨by omega, pyStrLe_trans s1 s2⟩⟩

instance : IsTotal (StyleKey × ℕ) styleLe := ⟨by intro a b; unfold styleLe; omega⟩

instance : IsTrans (StyleKey × ℕ) styleLe :=
  ⟨by intro a b c h1 h2; unfold styleLe at *; omega⟩

/-! ## Idempotence of `pyStrip` -/

theorem dropWhile_head_false {p : Char → Bool} :
    ∀ {l : List Char} {c : Char}, (l.dropWhile p).head? = some c → p c = false
  | [], c => by simp [List.dropWhile]
  | a :: as, c => by
      by_cases h : p a
      · simpa [List.dropWhile, h] using dropWhile_head_false (l := as) (c := c)
      · simp only [List.dropWhile, h]
        intro he
        injection he with he
        rw [← he]
        exact Bool.of_not_eq_true h

theorem dropWhile_eq_self_of_head {p : Char → Bool} {l : List Char}
    (h : ∀ c, l.head? = some c → p c = false) : l.dropWhile p = l := by
  cases l with
  | nil => rfl
  | cons a as => simp [List.dropWhile, h a rfl]

theorem getLast?_dropWhile {p : Char → Bool} :
    ∀ {l : List Char}, l.dropWhile p ≠ [] → (l.dropWhile p).getLast? = l.getLast?
  | [], h => rfl
  | a :: as, h => by
      by_cases hp : p a
      · simp only [List.dropWhile, hp] at h ⊢
        have has : as ≠ [] := by
          intro he
          rw [he] at h
          exact h rfl
        rw [getLast?_dropWhile h]
        obtain ⟨d, ds, rfl⟩ := List.exists_cons_of_ne_nil has
        rfl
      · simp [List.dropWhile, hp]

theorem pyStripL_idem (l : List Char) : pyStripL (pyStripL l) = pyStripL l := by
  unfold pyStripL
  by_cases hb : (l.dropWhile pyWs).reverse.dropWhile pyWs = []
  · simp [hb]
  · have ha : l.dropWhile pyWs ≠ [] := by
      intro he
      rw [he] at hb
      exact hb rfl
    have hm : ((l.dropWhile pyWs).reverse.dropWhile pyWs).reverse.dropWhile pyWs =
        ((l.dropWhile pyWs).reverse.dropWhile pyWs).reverse := by
      apply dropWhile_eq_self_of_head
      intro c hc
      rw [List.head?_reverse, getLast?_dropWhile hb, List.getLast?_reverse] at hc
      exact dropWhile_head_false hc
    rw [hm, List.reverse_reverse]
    have hbb : ((l.dropWhile pyWs).reverse.dropWhile pyWs).dropWhile pyWs =
        (l.dropWhile pyWs).reverse.dropWhile pyWs := by
      apply dropWhile_eq_self_of_head
      intro c hc
      exact dropWhile_head_false hc
    rw [hbb]

theorem pyStrip_idem (s : String) : pyStrip (pyStrip s) = pyStrip s :=
  String.ext (by simpa [pyStrip] using pyStripL_idem s.data)

theorem is_likely_label_pyStrip (s : String) :
    is_likely_label (pyStrip s) = is_likely_label s := by
  unfold is_likely_label
  rw [pyStrip_idem]

/-! ## Helper lemmas about the pipeline pieces -/

theorem dedupHeadings_spec :
    ∀ (l : List Heading) (seen : List (String × ℤ)),
      (∀ h ∈ dedupHeadings l seen, (h.text, h.page) ∉ seen) ∧
        (dedupHeadings l seen).Pairwise (fun a b => ¬(a.text = b.text ∧ a.page = b.page))
  | [], seen => by simp [dedupHeadings]
  | h :: rest, seen => by
      by_cases hm : (h.text, h.page) ∈ seen
      · simpa [dedupHeadings, hm] using dedupHeadings_spec rest seen
      · have ih := dedupHeadings_spec rest ((h.text, h.page) :: seen)
        simp only [dedupHeadings, if_neg hm]
        constructor
        · intro x hx
          rcases List.mem_cons.mp hx with rfl | hx
          · exact hm
          · intro hin
            exact ih.1 x hx (List.mem_cons_of_mem _ hin)
        · rw [List.pairwise_cons]
          refine ⟨?_, ih.2⟩
          intro x hx ⟨ht, hp⟩
          apply ih.1 x hx
          rw [← ht, ← hp]
          exact List.mem_cons_self _ _

theorem final_filter_mem {items : List Item} {o : Heading}
    (ho : o ∈ final_filter_outline items) :
    is_likely_label o.text = false ∧
      o.level ∈ (["H1", "H2", "H3", "H4"] : List String) ∧ o.text ≠ "Name:" := by
  obtain ⟨it, -, heq⟩ := List.mem_filterMap.mp ho
  by_cases hl : it.level ∈ (["H1", "H2", "H3", "H4"] : List String)
  · rw [if_pos hl] at heq
    by_cases hlab : is_likely_label it.text
    · rw [if_pos hlab] at heq
      cases heq
    · rw [if_neg hlab] at heq
      injection heq with heq
      subst heq
      refine ⟨?_, hl, ?_⟩
      · show is_likely_label (pyStrip it.text) = false
        rw [is_likely_label_pyStrip]
        exact Bool.of_not_eq_true hlab
      · show pyStrip it.text ≠ "Name:"
        intro hname
        have h2 : is_likely_label (pyStrip it.text) = true := by rw [hname]; decide
        rw [is_likely_label_pyStrip] at h2
        exact hlab h2
  · rw [if_neg hl] at heq
    cases heq

theorem filterMap_ite {α β : Type} (q : α → Prop) [DecidablePred q] (f : α → β) :
    ∀ l : List α,
      l.filterMap (fun e => if q e then some (f e) else none) =
        (l.filter (fun e => q e)).map f
  | [] => rfl
  | a :: l => by
      by_cases h : q a <;>
        simp [List.filter_cons, h, filterMap_ite q f l]

theorem extract_toc_eq {doc : Doc} (h : doc.toc ≠ []) :
    extract_headings_from_toc doc = some (tocMirror doc) := by
  unfold extract_headings_from_toc tocMirror
  rw [if_neg h]
  rw [filterMap_ite (fun e : TocEntry => 1 ≤ e.level ∧ e.level ≤ 3)
    (fun e : TocEntry => (⟨"H" ++ toString e.level, pyStrip e.title, e.page⟩ : Heading))]

theorem tocMirror_eq_map {doc : Doc} (hlv : ∀ e ∈ doc.toc, 1 ≤ e.level ∧ e.level ≤ 3) :
    tocMirror doc =
      doc.toc.map (fun e => ⟨"H" ++ toString e.level, pyStrip e.title, e.page⟩) := by
  unfold tocMirror
  rw [List.filter_eq_self.mpr]
  intro a ha
  exact decide_eq_true (hlv a ha)

theorem tocMirror_ne_nil {doc : Doc} (htoc : doc.toc ≠ [])
    (hlv : ∀ e ∈ doc.toc, 1 ≤ e.level ∧ e.level ≤ 3) : tocMirror doc ≠ [] := by
  rw [tocMirror_eq_map hlv]
  cases h : doc.toc with
  | nil => exact absurd h htoc
  | cons e rest => simp

theorem extract_blocks_nil {doc : Doc} (h : doc.pages = []) :
    extract_blocks_from_pdf doc = [] := by
  simp [extract_blocks_from_pdf, h]

theorem get_title_ok {doc : Doc} (h : doc.metadataTitle ≠ "" ∨ doc.pages ≠ []) :
    ∃ t, get_title doc = Except.ok t := by
  by_cases hm : doc.metadataTitle = ""
  · rcases h with h | h
    · exact absurd hm h
    · cases hp : doc.pages with
      | nil => exact absurd hp h
      | cons p rest => exact ⟨getTitleFromPage p, by simp [get_title, hm, hp]⟩
  · exact ⟨pyStrip doc.metadataTitle, by simp [get_title, hm]⟩

theorem fallback_extraction_ok {doc : Doc} {t : String} (h : get_title doc = Except.ok t) :
    fallback_extraction doc = Except.ok ⟨t,
      match extract_headings_from_toc doc with
      | some hs =>
          if hs = [] then extract_headings_by_heuristic doc (analyze_font_styles doc) else hs
      | none => extract_headings_by_heuristic doc (analyze_font_styles doc)⟩ := by
  unfold fallback_extraction
  rw [h]

/-! ## Style-profiler lemmas -/

/-- Mass recorded for key `k` in the association list (0 when absent). -/
def lookupMass : List (StyleKey × ℕ) → StyleKey → ℕ
  | [], _ => 0
  | (k', c) :: rest, k => if k' = k then c else lookupMass rest k

theorem addMass_lookupMass :
    ∀ (acc : List (StyleKey × ℕ)) (k : StyleKey) (m : ℕ) (k' : StyleKey),
      lookupMass (addMass acc k m) k' = lookupMass acc k' + (if k' = k then m else 0)
  | [], k, m, k' => by
      by_cases h : k' = k
      · simp [addMass, lookupMass, h]
      · have h' : ¬ k = k' := fun h2 => h h2.symm
        simp [addMass, lookupMass, h, h']
  | (k0, c) :: rest, k, m, k' => by
      by_cases h0 : k0 = k
      · subst h0
        by_cases h1 : k0 = k'
        · subst h1
          simp [addMass, lookupMass]
        · have h1' : ¬ k' = k0 := fun h2 => h1 h2.symm
          simp [addMass, lookupMass, h1, h1']
      · by_cases h1 : k0 = k'
        · subst h1
          have h0' : ¬ k0 = k := h0
          simp [addMass, lookupMass, h0', addMass_lookupMass rest k m k0]
        · simp [addMass, lookupMass, h0, h1, addMass_lookupMass rest k m k']

theorem addMass_mem_keys :
    ∀ (acc : List (StyleKey × ℕ)) (k : StyleKey) (m : ℕ) (x : StyleKey),
      x ∈ (addMass acc k m).map Prod.fst ↔ x ∈ acc.map Prod.fst ∨ x = k
  | [], k, m, x => by simp [addMass]
  | (k0, c) :: rest, k, m, x => by
      by_cases h0 : k0 = k
      · subst h0
        simp [addMass]
        tauto
      · simp [addMass, h0, addMass_mem_keys rest k m x]
        tauto

theorem addMass_nodup_keys :
    ∀ (acc : List (StyleKey × ℕ)) (k : StyleKey) (m : ℕ),
      (acc.map Prod.fst).Nodup → ((addMass acc k m).map Prod.fst).Nodup
  | [], k, m, _ => by simp [addMass]
  | (k0, c) :: rest, k, m, h => by
      simp only [List.map_cons, List.nodup_cons] at h
      by_cases h0 : k0 = k
      · subst h0
        simpa [addMass] using h
      · simp only [addMass, h0, if_false, List.map_cons, List.nodup_cons]
        refine ⟨?_, addMass_nodup_keys rest k m h.2⟩
        rw [addMass_mem_keys]
        rintro (hx | rfl)
        · exact h.1 hx
        · exact h0 rfl

theorem foldl_styleStep_lookupMass :
    ∀ (spans : List Span) (acc : List (StyleKey × ℕ)) (k : StyleKey),
      lookupMass (spans.foldl styleStep acc) k = lookupMass acc k + massOf k spans
  | [], acc, k => by simp [massOf]
  | s :: rest, acc, k => by
      rw [List.foldl_cons, foldl_styleStep_lookupMass rest _ k]
      unfold styleStep
      rw [addMass_lookupMass]
      unfold massOf
      by_cases h : spanStyleKey s = k
      · simp [List.filter_cons, h]
        omega
      · have h' : ¬ k = spanStyleKey s := fun h2 => h h2.symm
        simp [List.filter_cons, h, h']

theorem foldl_styleStep_nodup :
    ∀ (spans : List Span) (acc : List (StyleKey × ℕ)),
      (acc.map Prod.fst).Nodup → ((spans.foldl styleStep acc).map Prod.fst).Nodup
  | [], _, h => h
  | _ :: rest, acc, h =>
      foldl_styleStep_nodup rest _ (addMass_nodup_keys acc _ _ h)

theorem mem_lookupMass :
    ∀ {l : List (StyleKey × ℕ)}, (l.map Prod.fst).Nodup →
      ∀ {k : StyleKey} {c : ℕ}, (k, c) ∈ l → lookupMass l k = c
  | [], _, _, _, hm => by cases hm
  | (k0, c0) :: rest, hnd, k, c, hm => by
      simp only [List.map_cons, List.nodup_cons] at hnd
      rcases List.mem_cons.mp hm with he | hm2
      · injection he with he1 he2
        subst he1
        subst he2
        simp [lookupMass]
      · have hk : k0 ≠ k := by
          intro he
          subst he
          exact hnd.1 (List.mem_map.mpr ⟨(k0, c), hm2, rfl⟩)
        simp [lookupMass, hk, mem_lookupMass hnd.2 hm2]

theorem foldl_lines_spans :
    ∀ (lines : List Line) (acc : List (StyleKey × ℕ)),
      lines.foldl (fun acc l => l.spans.foldl styleStep acc) acc =
        ((lines.map Line.spans).flatten).foldl styleStep acc
  | [], acc => rfl
  | l :: rest, acc => by
      simp only [List.foldl_cons, List.map_cons, List.flatten_cons, List.foldl_append]
      exact foldl_lines_spans rest _

theorem foldl_blocks_spans :
    ∀ (blocks : List Block) (acc : List (StyleKey × ℕ)),
      blocks.foldl (fun acc b =>
          if b.type = 0 then b.lines.foldl (fun acc l => l.spans.foldl styleStep acc) acc
          else acc) acc =
        (((blocks.filter (fun b => b.type = 0)).map
            (fun b => (b.lines.map Line.spans).flatten)).flatten).foldl styleStep acc
  | [], acc => rfl
  | b :: rest, acc => by
      simp only [List.foldl_cons, List.filter_cons]
      by_cases h : b.type = 0
      · rw [if_pos h, if_pos (decide_eq_true h), List.map_cons, List.flatten_cons,
          List.foldl_append, foldl_blocks_spans rest _, foldl_lines_spans]
      · rw [if_neg h, if_neg (by simp [h]), foldl_blocks_spans rest _]

theorem collectStyles_eq_foldl (doc : Doc) :
    collectStyles doc = (allStyleSpans doc).foldl styleStep [] := by
  unfold collectStyles allStyleSpans
  generalize ([] : List (StyleKey × ℕ)) = acc
  induction doc.pages generalizing acc with
  | nil => rfl
  | cons p rest ih =>
      simp only [List.foldl_cons, List.map_cons, List.flatten_cons, List.foldl_append]
      rw [ih, foldl_blocks_spans]

theorem collectStyles_nodup_keys (doc : Doc) :
    ((collectStyles doc).map Prod.fst).Nodup := by
  rw [collectStyles_eq_foldl]
  exact foldl_styleStep_nodup _ _ (by simp)

theorem collectStyles_mass {doc : Doc} {k : StyleKey} {c : ℕ}
    (h : (k, c) ∈ collectStyles doc) : c = massOf k (allStyleSpans doc) := by
  have hnd := collectStyles_nodup_keys doc
  have h1 := mem_lookupMass hnd h
  rw [collectStyles_eq_foldl] at h1
  rw [foldl_styleStep_lookupMass] at h1
  simpa [lookupMass] using h1.symm

theorem assignH_ge4 : ∀ (l : List (StyleKey × ℕ)) (lvl : ℕ), 4 ≤ lvl → assignH l lvl = []
  | [], _, _ => rfl
  | (k, c) :: rest, lvl, h => by
      simp only [assignH]
      rw [if_neg (by omega)]

theorem assignH_take3 (l : List (StyleKey × ℕ)) :
    assignH l 1 =
      ((l.take 3).zip ["H1", "H2", "H3"]).map (fun x => (x.1.1, x.2)) := by
  rcases l with _ | ⟨⟨a, ca⟩, _ | ⟨⟨b, cb⟩, _ | ⟨⟨c, cc⟩, t⟩⟩⟩
  · rfl
  · simp only [assignH, List.take, List.zip, List.zipWith, List.map]
    norm_num
    decide
  · simp only [assignH, List.take, List.zip, List.zipWith, List.map]
    norm_num
    decide
  · simp only [assignH, List.take, List.zip, List.zipWith, List.map,
      assignH_ge4 t 4 (by omega)]
    norm_num
    decide

/-! ## Claim theorems -/

/-- C4 (counterexample): the claim "the returned outline is sorted by page
ascending, then level ascending, for every accepted path" is false: a
document whose embedded ToC lists page 5 before page 2 is returned in ToC
order by the accepted ToC path, unsorted. -/
def docC4cx : Doc := ⟨[], "T", [⟨1, "B", 5⟩, ⟨1, "A", 2⟩]⟩

/-- A model that always predicts an empty level list (its result is never
accepted because the resulting outline is empty). -/
def mlEmptyW : Model := fun _ => Except.ok []

/-- The result the pipeline returns on `docC4cx`. -/
def resC4cx : ExtractionResult := ⟨"T", [⟨"H1", "B", 5⟩, ⟨"H1", "A", 2⟩]⟩

/-- C4 is falsified at `docC4cx`: the accepted (ToC-path) outline lists
page 5 before page 2, so it is not sorted by (page, level). -/
theorem toc_outline_not_sorted_cx :
    processDocument mlEmptyW docC4cx = Except.ok resC4cx ∧
      ¬ resC4cx.outline.Pairwise headingLe := by
  constructor
  · with_unfolding_all decide
  · intro hp
    have h := (List.pairwise_cons.mp hp).1 ⟨"H1", "A", 2⟩ (by simp)
    unfold headingLe pyStrLe at h
    rcases h with h | ⟨h, -⟩ <;> simp at h

/-- C4 (amended): only the heuristic path sorts its outline; its output is
always sorted by page ascending, then level-string ascending. -/
theorem heuristic_outline_sorted (doc : Doc) (hs : List (StyleKey × String)) :
    (extract_headings_by_heuristic doc hs).Pairwise headingLe := by
  unfold extract_headings_by_heuristic
  exact List.sorted_insertionSort headingLe _

/-- C8: the heuristic-path outline never contains two headings with the same
`(text, page)`; and within one line, a style-map match takes priority over
the numbered-heading pattern (first match wins), appending exactly one
heading with the mapped level. -/
theorem heuristic_outline_dedup_first_match (doc : Doc) (hs : List (StyleKey × String)) :
    (extract_headings_by_heuristic doc hs).Pairwise
        (fun a b => ¬(a.text = b.text ∧ a.page = b.page)) ∧
      (∀ (pageNum : ℤ) (acc : List Heading) (l : Line) (s0 : Span) (rest : List Span)
          (lvl : String),
        l.spans = s0 :: rest →
        ¬ lineHeurText l = "" →
        ¬ (lineHeurText l).length < 3 →
        lookupStyle hs (spanStyleKey s0) = some lvl →
        processLine hs pageNum acc l = acc ++ [⟨lvl, lineHeurText l, pageNum⟩]) := by
  constructor
  · unfold extract_headings_by_heuristic
    have hsym : ∀ {x y : Heading},
        ¬(x.text = y.text ∧ x.page = y.page) → ¬(y.text = x.text ∧ y.page = x.page) := by
      intro x y h hc
      exact h ⟨hc.1.symm, hc.2.symm⟩
    exact (List.Perm.pairwise_iff hsym (List.perm_insertionSort headingLe _)).mpr
      (dedupHeadings_spec _ []).2
  · intro pageNum acc l s0 rest lvl hspans hne hlen hlook
    obtain ⟨spans⟩ := l
    simp only at hspans
    subst hspans
    simp only [processLine]
    rw [if_neg (not_or.mpr ⟨hne, hlen⟩), hlook]

/-- C5 (amended): the ToC extractor returns `none` exactly when the document
has no embedded outline; a present result is exactly the in-range entries
(out-of-range levels silently dropped); but the orchestrator treats a
present-but-empty ToC result like an absent one and falls through to the
heuristic path instead of accepting a headerless outline. -/
theorem toc_absent_vs_empty_behavior (doc : Doc) :
    (extract_headings_from_toc doc = none ↔ doc.toc = []) ∧
      (∀ hs, extract_headings_from_toc doc = some hs → hs = tocMirror doc) ∧
      (extract_headings_from_toc doc = some [] → ∀ t, get_title doc = Except.ok t →
        fallback_extraction doc =
          Except.ok ⟨t, extract_headings_by_heuristic doc (analyze_font_styles doc)⟩) := by
  refine ⟨?_, ?_, ?_⟩
  · unfold extract_headings_from_toc
    by_cases h : doc.toc = [] <;> simp [h]
  · intro hs h
    by_cases ht : doc.toc = []
    · unfold extract_headings_from_toc at h
      rw [if_pos ht] at h
      cases h
    · rw [extract_toc_eq ht] at h
      injection h with h
      exact h.symm
  · intro h t hget
    rw [fallback_extraction_ok hget, h]
    simp

/-- C2 (counterexample): a model-artifact load failure happens outside
`main`'s `try`, so it aborts the run and is surfaced to the caller instead
of being recovered by the heuristic path. -/
theorem model_load_failure_surfaces_error_cx :
    mainPipeline (Except.error ()) [docC4cx] = Except.error () := rfl

/-- C2 (amended): when the prediction call raises (the ML path returns an
error), the per-document pipeline recovers by running `fallback_extraction`
and still produces an `ExtractionResult`. -/
theorem prediction_failure_recovers_via_fallback (doc : Doc) (model : Model)
    (hpred : ml_based_extraction doc model = Except.error ()) :
    processDocument model doc = fallback_extraction doc ∧
      ∃ r, fallback_extraction doc = Except.ok r := by
  have hitems : extract_blocks_from_pdf doc ≠ [] := by
    intro hi
    simp only [ml_based_extraction] at hpred
    rw [if_pos hi] at hpred
    exact Except.noConfusion hpred
  have hpages : doc.pages ≠ [] := fun hp => hitems (extract_blocks_nil hp)
  obtain ⟨t, hget⟩ := get_title_ok (Or.inr hpages)
  constructor
  · unfold processDocument
    rw [hpred]
  · exact ⟨_, fallback_extraction_ok hget⟩

/-- C9: the per-document pipeline is a pure function of the parsed document
and the loaded model: equal inputs yield equal results, for one document
and for a whole batch run. -/
theorem pipeline_deterministic (model : Model) (d1 d2 : Doc) (h : d1 = d2) :
    processDocument model d1 = processDocument model d2 ∧
      mainPipeline (Except.ok model) [d1] = mainPipeline (Except.ok model) [d2] := by
  subst h
  exact ⟨rfl, rfl⟩

/-- C3 (amended): when the fallback path produces the result, a non-empty
metadata title is returned trimmed, before any page-1 fallback. -/
theorem fallback_title_prefers_metadata (doc : Doc) (h : doc.metadataTitle ≠ "") :
    (fallback_extraction doc).map ExtractionResult.title =
      Except.ok (pyStrip doc.metadataTitle) := by
  have hget : get_title doc = Except.ok (pyStrip doc.metadataTitle) := by
    unfold get_title
    rw [if_pos h]
  rw [fallback_extraction_ok hget]
  rfl

/-- C1 (amended): the model path is tried first, but whenever it raises or
yields an empty outline, a document whose embedded outline is non-empty
with all levels in 1..3 gets exactly the mirrored ToC (trimmed text,
`H<level>`, same page, same order) as its returned outline. -/
theorem toc_mirrored_when_ml_fails (doc : Doc) (model : Model)
    (hml : ∀ r, ml_based_extraction doc model = Except.ok r → r.outline = [])
    (hmeta : doc.metadataTitle ≠ "" ∨ doc.pages ≠ [])
    (htoc : doc.toc ≠ [])
    (hlv : ∀ e ∈ doc.toc, 1 ≤ e.level ∧ e.level ≤ 3) :
    (processDocument model doc).map ExtractionResult.outline =
        Except.ok (tocMirror doc) ∧
      tocMirror doc =
        doc.toc.map (fun e => ⟨"H" ++ toString e.level, pyStrip e.title, e.page⟩) := by
  obtain ⟨t, hget⟩ := get_title_ok hmeta
  have hfb : fallback_extraction doc = Except.ok ⟨t, tocMirror doc⟩ := by
    rw [fallback_extraction_ok hget, extract_toc_eq htoc]
    simp [tocMirror_ne_nil htoc hlv]
  refine ⟨?_, tocMirror_eq_map hlv⟩
  unfold processDocument
  cases hm : ml_based_extraction doc model with
  | ok r =>
      have hr := hml r hm
      simp [hr, hfb, Except.map]
  | error e =>
      simp [hfb, Except.map]

/-- C6: the Style Profiler records, per StyleKey, the total character mass
(sum of trimmed span-text lengths); ranks keys by ascending mass, ties
broken by descending rounded size then descending boldness (`styleLe`, a
permutation of the recorded table); assigns the first three ranked keys to
H1, H2, H3 in rank order; never maps more than 3 levels; never maps one
StyleKey twice; and with fewer than 3 distinct styles maps only as many as
exist. -/
theorem style_profiler_ranking_spec (doc : Doc) :
    (∀ k c, (k, c) ∈ collectStyles doc → c = massOf k (allStyleSpans doc)) ∧
      (List.insertionSort styleLe (collectStyles doc)).Pairwise styleLe ∧
      (List.insertionSort styleLe (collectStyles doc)).Perm (collectStyles doc) ∧
      analyze_font_styles doc =
        (((List.insertionSort styleLe (collectStyles doc)).take 3).zip
            ["H1", "H2", "H3"]).map (fun x => (x.1.1, x.2)) ∧
      (analyze_font_styles doc).length ≤ 3 ∧
      ((analyze_font_styles doc).map Prod.fst).Nodup ∧
      ((collectStyles doc).length < 3 →
        (analyze_font_styles doc).length = (collectStyles doc).length) := by
  have hperm := List.perm_insertionSort styleLe (collectStyles doc)
  have hzip : analyze_font_styles doc =
      (((List.insertionSort styleLe (collectStyles doc)).take 3).zip
          ["H1", "H2", "H3"]).map (fun x => (x.1.1, x.2)) := assignH_take3 _
  have hlen : (analyze_font_styles doc).length = min 3 (collectStyles doc).length := by
    rw [hzip]
    simp [List.length_zip, List.length_take, hperm.length_eq]
  have hkeys : (analyze_font_styles doc).map Prod.fst =
      ((List.insertionSort styleLe (collectStyles doc)).map Prod.fst).take 3 := by
    rw [hzip, List.map_map]
    have hc : (Prod.fst ∘ fun x : (StyleKey × ℕ) × String => (x.1.1, x.2)) =
        (Prod.fst ∘ Prod.fst) := rfl
    rw [hc, ← List.map_map, List.map_fst_zip, List.map_take]
    simp [List.length_take]
  have hnodup : ((analyze_font_styles doc).map Prod.fst).Nodup := by
    rw [hkeys]
    exact List.Nodup.sublist (List.take_sublist _ _)
      ((hperm.map Prod.fst).nodup_iff.mpr (collectStyles_nodup_keys doc))
  refine ⟨fun k c h => collectStyles_mass h, List.sorted_insertionSort styleLe _,
    hperm, hzip, ?_, hnodup, ?_⟩
  · rw [hlen]
    omega
  · intro h
    rw [hlen]
    omega

/-- C7: on the classifier path, every heading in the returned outline is
non-label-like (in particular no heading has text "Name:"), and carries a
label among H1..H4: label-like H1-H4 lines are excluded. -/
theorem ml_outline_excludes_labels (doc : Doc) (model : Model) (r : ExtractionResult)
    (h : ml_based_extraction doc model = Except.ok r) :
    ∀ o ∈ r.outline, is_likely_label o.text = false ∧
      o.level ∈ (["H1", "H2", "H3", "H4"] : List String) ∧ o.text ≠ "Name:" := by
  intro o ho
  simp only [ml_based_extraction] at h
  split at h
  · injection h with h2
    rw [← h2] at ho
    simp at ho
  · split at h
    · exact Except.noConfusion h
    · split at h
      · exact Except.noConfusion h
      · injection h with h2
        rw [← h2] at ho
        exact final_filter_mem ho

/-- A document with a single page holding one text block with one line of
one span (used to exercise the heuristic path on one line). -/
def mkSingleLineDoc (txt : String) (sz : ℚ) (font : String) : Doc :=
  ⟨[⟨[⟨0, [⟨[⟨txt, sz, font⟩]⟩]⟩]⟩], "", []⟩

/-- C10: the "numbered heading" pattern accepts any line whose leading
maximal alphanumeric token is followed by whitespace (not only
Chapter/Section/Part or dotted numbering), and a style-unmatched line of
trimmed length ≥ 3 accepted by it is emitted as an H2 heading by the
heuristic path. -/
theorem numbered_pattern_alnum_token :
    (∀ (tok rest : String), tok ≠ "" → tok.data.all isAsciiAlnum = true →
      numberedHeadingMatch (tok ++ " " ++ rest) = true) ∧
    (∀ (txt : String) (sz : ℚ) (font : String),
      pyStrip txt = txt → ¬ txt.length < 3 → numberedHeadingMatch txt = true →
      extract_headings_by_heuristic (mkSingleLineDoc txt sz font) [] =
        [⟨"H2", txt, 1⟩]) := by
  constructor
  · intro tok rest htok hall
    unfold numberedHeadingMatch
    rw [Bool.or_eq_true]
    right
    have hdata : (tok ++ " " ++ rest).data = tok.data ++ ' ' :: rest.data := by
      simp [String.data_append]
    rw [hdata]
    cases htd : tok.data with
    | nil => exact absurd (String.ext (by rw [htd])) htok
    | cons c cs =>
      rw [htd] at hall
      simp only [List.all_cons, Bool.and_eq_true] at hall
      simp only [List.cons_append, altTokenNumbered, hall.1, Bool.true_and]
      rw [List.dropWhile_cons]
      rw [if_pos hall.1]
      rw [List.dropWhile_append]
      have hnil : cs.dropWhile isAsciiAlnum = [] :=
        List.dropWhile_eq_nil_iff.mpr (fun x hx => List.all_eq_true.mp hall.2 x hx)
      rw [hnil]
      simp only [List.isEmpty_nil, if_true]
      rw [List.dropWhile_cons]
      rw [if_neg (by decide)]
      simp [afterTok]
  · intro txt sz font htrim hlen hmatch
    have htxtne : txt ≠ "" := by
      intro he
      rw [he] at hlen
      exact hlen (by decide)
    have h1 : lineHeurText ⟨[⟨txt, sz, font⟩]⟩ = txt := by
      unfold lineHeurText
      have hj : String.join [txt] = txt := by
        simp [String.join]
      simp only [List.map_cons, List.map_nil]
      rw [hj]
      exact htrim
    have hline : processLine [] (1 : ℤ) [] ⟨[⟨txt, sz, font⟩]⟩ =
        [⟨"H2", txt, (1 : ℤ)⟩] := by
      simp only [processLine]
      rw [h1]
      rw [if_neg (not_or.mpr ⟨htxtne, hlen⟩)]
      simp [lookupStyle, hmatch]
    unfold extract_headings_by_heuristic mkSingleLineDoc heurPage
    simp only [List.enum]
    simp only [List.enumFrom, List.foldl_cons, List.foldl_nil]
    norm_num
    rw [hline]
    simp [dedupHeadings, List.insertionSort]

/-! ## Concrete documents and models for witnesses and counterexamples -/

/-- A page with one 4-word, 20pt line (large enough to be kept and not
label-like). -/
def docMlPage : PdfPage := ⟨[⟨0, [⟨[⟨"General Discussion Of Results", 20, "Helv"⟩]⟩]⟩]⟩

/-- A model that labels every line H1 (class index 2). -/
def mlH1 : Model := fun _ => Except.ok [2]

/-- The ML-path result on `docMlPage` under `mlH1`. -/
def resMlCx : ExtractionResult :=
  ⟨"General Discussion Of Results", [⟨"H1", "General Discussion Of Results", 1⟩]⟩

/-- A document with a non-empty levels-1..3 ToC whose body text the model
happily labels H1. -/
def docC1cx : Doc := ⟨[docMlPage], "", [⟨1, "Different Heading", 1⟩]⟩

/-- C1 (counterexample): the model path runs first, so for this document
with a non-empty levels-1..3 embedded outline the returned outline is the
model's, not the ToC mirror — and the model path was invoked. -/
theorem ml_first_overrides_toc_cx :
    docC1cx.toc ≠ [] ∧ (∀ e ∈ docC1cx.toc, 1 ≤ e.level ∧ e.level ≤ 3) ∧
      processDocument mlH1 docC1cx = Except.ok resMlCx ∧
      resMlCx.outline ≠ tocMirror docC1cx := by
  refine ⟨by decide, by decide, by with_unfolding_all decide, by decide⟩

/-- An empty-paged document with metadata title and an in-range ToC (the
model path yields an empty outline on it, so the fallback runs). -/
def docC1W : Doc := ⟨[], "T", [⟨1, "Intro", 1⟩, ⟨2, "Background", 2⟩]⟩

/-- C1 (witness): the amended theorem applied at `docC1W`/`mlEmptyW`. -/
theorem toc_mirrored_when_ml_fails_witness :
    (processDocument mlEmptyW docC1W).map ExtractionResult.outline =
        Except.ok (tocMirror docC1W) ∧
      tocMirror docC1W = docC1W.toc.map
        (fun e => ⟨"H" ++ toString e.level, pyStrip e.title, e.page⟩) :=
  toc_mirrored_when_ml_fails docC1W mlEmptyW
    (fun r h => by
      rw [show ml_based_extraction docC1W mlEmptyW = Except.ok (⟨"", []⟩ : ExtractionResult)
          from by with_unfolding_all decide] at h
      injection h with h2
      rw [← h2])
    (Or.inl (by decide)) (by decide) (by decide)

/-- A model whose prediction call always raises. -/
def mlFail : Model := fun _ => Except.error ()

/-- C2 (witness): the amended theorem applied at a one-line document and
the always-raising model. -/
theorem prediction_failure_recovers_via_fallback_witness :
    processDocument mlFail (mkSingleLineDoc "Alpha Beta Gamma Delta" 10 "F") =
        fallback_extraction (mkSingleLineDoc "Alpha Beta Gamma Delta" 10 "F") ∧
      ∃ r, fallback_extraction (mkSingleLineDoc "Alpha Beta Gamma Delta" 10 "F") =
        Except.ok r :=
  prediction_failure_recovers_via_fallback (mkSingleLineDoc "Alpha Beta Gamma Delta" 10 "F")
    mlFail (by with_unfolding_all decide)

/-- A document whose metadata carries a title while the model path succeeds
with a non-empty outline. -/
def docC3cx : Doc := ⟨[docMlPage], "Meta Title", []⟩

/-- C3 (counterexample): on the accepted model path `find_title` never
consults metadata, so the returned title differs from the non-empty
(trimmed) metadata title. -/
theorem metadata_title_ignored_on_ml_path_cx :
    processDocument mlH1 docC3cx = Except.ok resMlCx ∧
      docC3cx.metadataTitle ≠ "" ∧
      resMlCx.title ≠ pyStrip docC3cx.metadataTitle := by
  refine ⟨by with_unfolding_all decide, by decide, by decide⟩

/-- C3 (witness): the amended theorem applied at a document with a padded
metadata title. -/
theorem fallback_title_prefers_metadata_witness :
    (fallback_extraction (⟨[], " My Doc ", []⟩ : Doc)).map ExtractionResult.title =
      Except.ok (pyStrip " My Doc ") :=
  fallback_title_prefers_metadata (⟨[], " My Doc ", []⟩ : Doc) (by decide)

/-- A document whose embedded outline is non-empty but entirely out of
range (level 4), alongside a styled body line the heuristic path maps. -/
def docC5cx : Doc :=
  ⟨[⟨[⟨0, [⟨[⟨"Results And Analysis Overview", 14, "Helv"⟩]⟩]⟩]⟩], "T", [⟨4, "Appendix", 9⟩]⟩

/-- What the pipeline returns on `docC5cx`: the heuristic outline, not the
present-but-empty ToC result. -/
def resC5cx : ExtractionResult := ⟨"T", [⟨"H1", "Results And Analysis Overview", 1⟩]⟩

/-- C5 (counterexample): the ToC extractor returns a present-but-empty
result (`some []`), yet the orchestrator does not accept it as a
headerless outline — it falls through to the heuristic path, which returns
a non-empty outline. -/
theorem empty_toc_falls_through_cx :
    extract_headings_from_toc docC5cx = some [] ∧
      fallback_extraction docC5cx = Except.ok resC5cx ∧
      resC5cx.outline ≠ [] := by
  refine ⟨by decide, by with_unfolding_all decide, by decide⟩

/-- A pageless document with an out-of-range-only ToC. -/
def docC5W : Doc := ⟨[], "T", [⟨4, "Z", 3⟩]⟩

/-- C5 (witness): the amended theorem applied at `docC5W`. -/
theorem toc_absent_vs_empty_behavior_witness :
    fallback_extraction docC5W =
      Except.ok ⟨"T", extract_headings_by_heuristic docC5W (analyze_font_styles docC5W)⟩ :=
  (toc_absent_vs_empty_behavior docC5W).2.2 (by decide) "T" (by decide)

/-- A document with exactly two distinct style keys. -/
def docC6W : Doc :=
  ⟨[⟨[⟨0, [⟨[⟨"Heading Text", 16, "Big-Bold"⟩]⟩, ⟨[⟨"body text of the page", 10, "Regular"⟩]⟩]⟩]⟩],
    "", []⟩

/-- C6 (witness): the degenerate-case conjunct applied at `docC6W`, which
has fewer than 3 distinct styles. -/
theorem style_profiler_ranking_spec_witness :
    (analyze_font_styles docC6W).length = (collectStyles docC6W).length :=
  (style_profiler_ranking_spec docC6W).2.2.2.2.2.2 (by with_unfolding_all decide)

/-- The ML result on a one-line document whose line the model labels H1. -/
def resC7W : ExtractionResult :=
  ⟨"Introduction To The Subject", [⟨"H1", "Introduction To The Subject", 1⟩]⟩

/-- C7 (witness): the theorem applied at a concrete classifier run. -/
theorem ml_outline_excludes_labels_witness :
    is_likely_label (⟨"H1", "Introduction To The Subject", 1⟩ : Heading).text = false ∧
      (⟨"H1", "Introduction To The Subject", 1⟩ : Heading).level ∈
        (["H1", "H2", "H3", "H4"] : List String) ∧
      (⟨"H1", "Introduction To The Subject", 1⟩ : Heading).text ≠ "Name:" :=
  ml_outline_excludes_labels (mkSingleLineDoc "Introduction To The Subject" 12 "F") mlH1
    resC7W (by with_unfolding_all decide) ⟨"H1", "Introduction To The Subject", 1⟩ (by decide)

/-- A one-entry style map and a line matching both it and the numbered
pattern. -/
def hsC8W : List (StyleKey × String) := [(⟨12, false, "F"⟩, "H1")]

/-- The line "Alpha 12 Beta Gamma" at size 12, font "F": its style key is in
`hsC8W` and its text also matches the numbered-heading pattern. -/
def lineC8W : Line := ⟨[⟨"Alpha 12 Beta Gamma", 12, "F"⟩]⟩

/-- C8 (witness): on a line matched by both rules the style match wins and
exactly one heading (with the mapped level, not H2) is appended. -/
theorem heuristic_outline_dedup_first_match_witness :
    processLine hsC8W 1 [] lineC8W = [⟨"H1", "Alpha 12 Beta Gamma", 1⟩] := by
  have h := (heuristic_outline_dedup_first_match docC5W hsC8W).2 1 [] lineC8W
    ⟨"Alpha 12 Beta Gamma", 12, "F"⟩ [] "H1" rfl (by decide) (by decide)
    (by with_unfolding_all decide)
  rw [h]
  with_unfolding_all decide

/-- C9 (witness): the determinism theorem applied at a concrete document
and model. -/
theorem pipeline_deterministic_witness :
    processDocument mlH1 (mkSingleLineDoc "Sample Heading Text Line" 10 "F") =
        processDocument mlH1 (mkSingleLineDoc "Sample Heading Text Line" 10 "F") ∧
      mainPipeline (Except.ok mlH1) [mkSingleLineDoc "Sample Heading Text Line" 10 "F"] =
        mainPipeline (Except.ok mlH1) [mkSingleLineDoc "Sample Heading Text Line" 10 "F"] :=
  pipeline_deterministic mlH1 _ _ rfl

/-- C10 (witness): "The quick brown fox" (first token "The", no numbering
keyword) matches the pattern and is emitted as an H2 heading. -/
theorem numbered_pattern_alnum_token_witness :
    numberedHeadingMatch "The quick brown fox" = true ∧
      extract_headings_by_heuristic (mkSingleLineDoc "The quick brown fox" 11 "F") [] =
        [⟨"H2", "The quick brown fox", 1⟩] := by
  have h1 : numberedHeadingMatch "The quick brown fox" = true := by
    have h := numbered_pattern_alnum_token.1 "The" "quick brown fox" (by decide) (by decide)
    rw [show ("The" ++ " " ++ "quick brown fox") = "The quick brown fox" from by decide] at h
    exact h
  exact ⟨h1, numbered_pattern_alnum_token.2 "The quick brown fox" 11 "F"
    (by decide) (by decide) h1⟩
